import Mathlib

/-!
Verification development for `mutatio.py`, an OpenBSD change-detection and
snapshot-update agent.  The definitions below are a shallow embedding of the
snapshot acquisition / verification / rotation subsystem of the script:

* `verify_result`      — output parsing of `verify` (mutatio.py lines 224-249);
* `extractRelease`     — the release-token extraction inside `verify`
                         (lines 233-240), with Python's character-set
                         `lstrip`/`rstrip` semantics;
* `check_integrity`    — the single-retry integrity gate (lines 252-269),
                         instrumented with an invocation/sleep trace;
* `filecmp_cmp` / `is_installed` — the boot-proxy comparison (lines 272-282),
                         with Python `filecmp.cmp`'s default shallow semantics;
* `rotate`             — the generation rotator (lines 285-295);
* `findall`            — the greedy `\((.*)\)` scan of `download_snapshot`
                         (lines 206-221), and a fetch-trace model of it;
* `get_update_info` / `snapshot_main` / `main_model` — the orchestrator
                         (lines 172-188 and 441-507), with `sys.exit` modelled
                         as an exit code carried next to the on-disk state.

External effects (network, the signify tool, the live filesystem) enter as
oracle parameters; everything observable (fetch attempts, verifier
invocations, sleeps, slot contents, cache contents, exit codes) is returned
explicitly so that the claims about traces and frame conditions can be stated.
-/

namespace Mutatio

/-! ## Signature Verifier (`verify`, mutatio.py lines 224-249)

`verify` runs `signify`, then computes
`failed = [i.split(":")[0] for i in status[1].split(os.linesep) if i.endswith("FAIL")]`
and returns `(status[0] == 0, failed)`.  `os.linesep` is `"\n"` on the
POSIX systems the script targets. -/

/-- Python `s.split(sep)` for a one-character separator: `""` splits to
`[""]`, and every occurrence of the separator opens a new (possibly empty)
piece. -/
def splitOnChar (sep : Char) : List Char → List (List Char)
  | [] => [[]]
  | c :: rest =>
    let r := splitOnChar sep rest
    if c = sep then [] :: r
    else (c :: r.headD []) :: r.tail

/-- Python `s.endswith(t)`. -/
def endsWithS (l suffix : List Char) : Bool :=
  l.reverse.take suffix.length == suffix.reverse

/-- The `line.split(":")[0]`: the text before the first `":"` (the whole line when
there is none). -/
def firstField (line : List Char) : List Char :=
  line.takeWhile (fun c => c ≠ ':')

/-- The failed-member list `verify` extracts from the tool output: every output
line (split on `os.linesep = "\n"`) ending in `"FAIL"`, mapped to its first
`":"`-separated field, in output order. -/
def failedMembers (output : List Char) : List (List Char) :=
  ((splitOnChar '\n' output).filter (fun l => endsWithS l "FAIL".toList)).map firstField

/-- The pair `verify` returns (mutatio.py line 249): `(status[0] == 0, failed)`.
The boolean is computed from the exit status alone. -/
def verify_result (exitStatus : Int) (output : List Char) : Bool × List (List Char) :=
  (exitStatus == 0, failedMembers output)

/-! ## Release-token extraction inside `verify` (mutatio.py lines 233-240)

`list(Path('.').glob('base*.tgz'))[0].as_posix().rstrip('.tgz').lstrip('base')`.
Python's `str.rstrip`/`str.lstrip` take their argument as a *set of
characters*: they remove the maximal trailing (resp. leading) run of
characters drawn from that set. -/

/-- Python `s.lstrip(cs)`: drop the maximal leading run of characters that
belong to `cs`. -/
def pyLstrip (cs : List Char) (s : List Char) : List Char :=
  s.dropWhile (fun c => cs.contains c)

/-- Python `s.rstrip(cs)`: drop the maximal trailing run of characters that
belong to `cs`. -/
def pyRstrip (cs : List Char) (s : List Char) : List Char :=
  (s.reverse.dropWhile (fun c => cs.contains c)).reverse

/-- The release token `verify` derives from a base-archive filename:
`name.rstrip('.tgz').lstrip('base')`. -/
def extractRelease (name : List Char) : List Char :=
  pyLstrip "base".toList (pyRstrip ".tgz".toList name)

/-- Whether a filename matches the glob pattern `base*.tgz` used at
mutatio.py line 235: it starts with `base` and ends with `.tgz` (for a name
this is equivalent to the glob, since no string shorter than 8 characters can
satisfy both). -/
def matchesBasePattern (name : List Char) : Bool :=
  (name.take 4 == "base".toList) && endsWithS name ".tgz".toList

/-- The release token computed by `verify` from a snapshot directory listing:
the first filename matching `base*.tgz`, stripped as above.  `none` models the
uncaught `IndexError` (fatal) raised by `[0]` when no file matches. -/
def snapshot_release (listing : List (List Char)) : Option (List Char) :=
  ((listing.filter matchesBasePattern).head?).map extractRelease

/-! ## Integrity Gate (`check_integrity`, mutatio.py lines 252-269)

The verifier behaviour is an oracle `ver : Nat → Bool × List String` giving
the result of the i-th `verify` invocation; `fetchOk` tells whether
`get_binary` succeeds for a given filename (on failure `get_binary` prints the
error and calls `sys.exit(-2)`). -/

/-- One `for f in failed: get_binary(...)` loop: returns whether every fetch
succeeded and the list of fetches actually attempted (the loop stops at the
first failure because `get_binary` exits the process). -/
def fetchLoop (fetchOk : String → Bool) : List String → Bool × List String
  | [] => (true, [])
  | f :: fs =>
    if fetchOk f then
      let r := fetchLoop fetchOk fs
      (r.1, f :: r.2)
    else
      (false, [f])

/-- Observable outcome of one `check_integrity` run. -/
structure GateRun where
  /-- The `some c`: the process exited with code `c` mid-run (a failed re-fetch). -/
  exitCode : Option Int
  /-- The returned `whole` boolean (meaningful only when `exitCode = none`). -/
  intact : Bool
  /-- How many times `verify` was invoked. -/
  verifyCalls : Nat
  /-- The durations of the `sleep` calls performed, in order. -/
  sleeps : List Nat
  /-- The filenames re-fetched (attempted) between the two verifications. -/
  refetched : List String
  deriving Repr, DecidableEq

/-- The `check_integrity` (mutatio.py lines 252-269): verify once; if the failed
list is non-empty, sleep 300 seconds, re-fetch each failed member, verify a
second time, and return that second `whole`. -/
def check_integrity (ver : Nat → Bool × List String) (fetchOk : String → Bool) :
    GateRun :=
  let r1 := ver 0
  if r1.2 = [] then
    ⟨none, r1.1, 1, [], []⟩
  else
    let fl := fetchLoop fetchOk r1.2
    if fl.1 then
      let r2 := ver 1
      ⟨none, r2.1, 2, [300], fl.2⟩
    else
      ⟨some (-2), false, 1, [300], fl.2⟩

/-! ## Installed-State Comparator (`is_installed`, mutatio.py lines 272-282)

`is_installed` calls `filecmp.cmp(snapshot/bsd.rd, /bsd.rd)` with the default
`shallow=True`.  `filecmp.cmp` compares `os.stat` signatures
`(file type, size, mtime)` first: when `shallow` is true and the signatures
coincide the files are declared equal *without reading their contents*. -/

/-- A regular-or-not file with its stat data.  The size reported by `os.stat`
is the byte length of the content, so it is derived, not stored. -/
structure File where
  isRegular : Bool
  mtime : Nat
  content : List Nat
  deriving Repr, DecidableEq

/-- The `os.stat` signature `filecmp._sig` builds: (type, size, mtime). -/
def File.sig (f : File) : Bool × Nat × Nat :=
  (f.isRegular, f.content.length, f.mtime)

/-- Python `filecmp.cmp(f1, f2, shallow)`: `False` unless both are regular
files; `True` when `shallow` and the stat signatures agree; otherwise `False`
on a size mismatch, else a full byte comparison. -/
def filecmp_cmp (shallow : Bool) (f1 f2 : File) : Bool :=
  if ¬(f1.isRegular && f2.isRegular) then false
  else if shallow && f1.sig == f2.sig then true
  else if f1.content.length != f2.content.length then false
  else f1.content == f2.content

/-- The `is_installed` (mutatio.py lines 272-282): compare the snapshot's `bsd.rd`
with the live `/bsd.rd` via `filecmp.cmp` with its default `shallow=True`. -/
def is_installed (snapshotBsdRd liveBsdRd : File) : Bool :=
  filecmp_cmp true snapshotBsdRd liveBsdRd

/-! ## Generation Rotator (`rotate`, mutatio.py lines 285-295)

Slots are directories that may or may not exist; their payload is abstract.
`shutil.move(src, dst)` with `dst` non-existent is a rename; `rotate` only
moves onto paths it has just emptied, so every move here is a rename.
`move` raises (`none` below) when its source does not exist. -/

/-- The three generation slots; `none` = the directory does not exist. -/
structure Slots (α : Type) where
  previous : Option α
  current : Option α
  upgrade : Option α
  deriving Repr, DecidableEq

/-- The `rotate` (mutatio.py lines 285-295): delete `previous` if it exists, move
`current` (if it exists) to `previous`, move `upgrade` to `current`.  `none`
models the exception `shutil.move` raises when `upgrade` does not exist. -/
def rotate {α : Type} (s : Slots α) : Option (Slots α) :=
  let s1 : Slots α := { s with previous := none }
  let s2 : Slots α :=
    match s1.current with
    | some c => { s1 with previous := some c, current := none }
    | none => s1
  match s2.upgrade with
  | some u => some { s2 with current := some u, upgrade := none }
  | none => none

/-! ## Snapshot Acquirer (`download_snapshot`, mutatio.py lines 206-221)

`files = findall("\((.*)\)", open(signify_file_path).read())`.  Python's
regex engine scans left to right; at an unconsumed `'('` the greedy `(.*)`
(where `.` does not cross a newline) backtracks to the *last* `')'` on the
same line, and scanning resumes after that `')'`.  A `'('` with no `')'`
later on its line matches nothing and is skipped. -/

/-- Split a line segment at its last `')'`: `some (g, a)` with
`seg = g ++ ')' :: a` and no `')'` in `a`; `none` when the segment holds no
`')'`. -/
def splitLastRParen : List Char → Option (List Char × List Char)
  | [] => none
  | c :: rest =>
    match splitLastRParen rest with
    | some (g, a) => some (c :: g, a)
    | none => if c = ')' then some ([], rest) else none

/-- Fuel-indexed scan implementing `re.findall("\((.*)\)", text)`: at each
`'('`, look at the rest of its line; if it holds a `')'`, emit everything up
to the last one as a match and resume after it, else skip the `'('`.
(`rest.dropWhile (· ≠ '\n')` is the text from the end of the line segment
onwards, i.e. the part of `rest` the segment did not cover.) -/
def findallAux : Nat → List Char → List (List Char)
  | 0, _ => []
  | _ + 1, [] => []
  | fuel + 1, c :: rest =>
    if c = '(' then
      match splitLastRParen (rest.takeWhile (fun x => x ≠ '\n')) with
      | some (g, after) =>
          g :: findallAux fuel (after ++ rest.dropWhile (fun x => x ≠ '\n'))
      | none => findallAux fuel rest
    else
      findallAux fuel rest

/-- The `re.findall("\((.*)\)", text)` over a character list.  Each successful
match consumes at least two characters, so `l.length` fuel always suffices
(`findallAux_fuel` below). -/
def findall (l : List Char) : List (List Char) :=
  findallAux l.length l

/-- Fuel-indexed version of the spec's reading of the member list: at each
`'('` take the (minimal) run up to the next `')'` and continue after it. -/
def parenSubstringsSpecAux : Nat → List Char → List (List Char)
  | 0, _ => []
  | _ + 1, [] => []
  | fuel + 1, c :: rest =>
    if c = '(' then
      match rest.dropWhile (fun x => x ≠ ')') with
      | _ :: after => rest.takeWhile (fun x => x ≠ ')') :: parenSubstringsSpecAux fuel after
      | [] => parenSubstringsSpecAux fuel rest
    else
      parenSubstringsSpecAux fuel rest

/-- The spec's reading of the member list: "every substring enclosed in
parentheses", one per checksummed member, i.e. the minimal parenthesized
groups in order of appearance.  Used only to compare the code's greedy
extraction against the spec's words. -/
def parenSubstringsSpec (l : List Char) : List (List Char) :=
  parenSubstringsSpecAux l.length l

/-- The fixed name of the signify checksum file (`signify["file"]`,
mutatio.py line 350). -/
def sigFileName : String := "SHA256.sig"

/-- Fetch-trace model of `download_snapshot` (mutatio.py lines 206-221) given
the fetched manifest content and a per-file fetch oracle: returns
(exit code if the process died, filenames whose fetch was attempted in order,
member names parsed from the manifest).  The manifest itself is fetched
first; each member fetch failure exits the process. -/
def download_snapshot (sigContent : Option String) (fetchOk : String → Bool) :
    Option Int × List String × List String :=
  match sigContent with
  | none => (some (-2), [sigFileName], [])
  | some content =>
    let files := (findall content.toList).map List.asString
    let fl := fetchLoop fetchOk files
    ((if fl.1 then none else some (-2)), sigFileName :: fl.2, files)

/-! ## Release Orchestrator (`get_update_info` and `main`, mutatio.py
lines 172-188 and 441-507)

`get_update_info` fetches the document, computes its status against the local
cache file, and overwrites the cache exactly when the status is `bootstrap`
or `new`.  The snapshot section of `main` then branches on that status.
`sys.exit` is modelled as an exit code returned beside the on-disk state at
the moment of exit.  A slot directory's payload is the list of snapshot
identities living in it (since `shutil.move` into an *existing* directory
nests the source inside it). -/

inductive Status
  | bootstrap
  | same
  | new
  deriving Repr, DecidableEq

/-- The cache transition of `get_update_info` (mutatio.py lines 172-188):
no cache file → `bootstrap` (write); cache equal to the fetched document →
`same` (no write); otherwise `new` (write).  Returns
(status, cache content afterwards, whether the cache file was written). -/
def get_update_info (cache : Option String) (doc : String) :
    Status × Option String × Bool :=
  match cache with
  | none => (Status.bootstrap, some doc, true)
  | some prev =>
    if prev = doc then (Status.same, some prev, false)
    else (Status.new, some doc, true)

/-- The `shutil.move(src, slot)`: a rename when the slot does not exist, a move
*into* the existing directory otherwise. -/
def moveIntoDir {α : Type} (snap : α) (slot : Option (List α)) : Option (List α) :=
  match slot with
  | none => some [snap]
  | some l => some (l ++ [snap])

/-- External behaviour feeding one `main` invocation. -/
structure Oracle where
  /-- Content of the snapshot BUILDINFO document, `none` = network error. -/
  buildinfo : Option String
  /-- Per-topic document fetch for the non-snapshot checks. -/
  docFetch : String → Option String
  /-- Content of the fetched `SHA256.sig`, `none` = network error. -/
  sigContent : Option String
  /-- Whether fetching a given member file succeeds. -/
  binFetch : String → Bool
  /-- Result of the i-th signify invocation: `(whole, failed)`. -/
  ver : Nat → Bool × List String
  /-- The `is_installed` verdict for the snapshot in the `upgrade` slot. -/
  upgradeRunning : Bool
  /-- The `is_installed` verdict for the newly downloaded snapshot. -/
  snapRunning : Bool

/-- On-disk state the snapshot section of `main` touches: the BUILDINFO cache
file and the three generation slots (payload: snapshot identities, here the
manifest content of the snapshot stored there). -/
structure MainState where
  manifestCache : Option String
  slots : Slots (List String)
  deriving Repr, DecidableEq

/-- The `download_snapshot` followed by `check_integrity` (the common prefix of
the `bootstrap` and `new` branches of `main`): returns the exit code if the
process died during either phase, paired with the gate's verdict. -/
def acquire_and_gate (orc : Oracle) : Option Int × Bool :=
  let dl := download_snapshot orc.sigContent orc.binFetch
  match dl.1 with
  | some e => (some e, false)
  | none =>
    let gate := check_integrity orc.ver orc.binFetch
    match gate.exitCode with
    | some e => (some e, false)
    | none => (none, gate.intact)

/-- The snapshot section of `main` (mutatio.py lines 459-507): check the
BUILDINFO document, then — per status — download, gate, and move/rotate.
Returns `(exit code if the process died, on-disk state at the end)`. -/
def snapshot_main (orc : Oracle) (st : MainState) : Option Int × MainState :=
  match orc.buildinfo with
  | none => (some (-2), st)
  | some doc =>
    let u := get_update_info st.manifestCache doc
    let st1 : MainState := ⟨u.2.1, st.slots⟩
    match u.1 with
    | Status.same =>
      if st1.slots.upgrade.isSome && orc.upgradeRunning then
        match rotate st1.slots with
        | some s2 => (none, ⟨st1.manifestCache, s2⟩)
        | none => (some 1, st1)
      else (none, st1)
    | Status.bootstrap =>
      let ag := acquire_and_gate orc
      match ag.1 with
      | some e => (some e, st1)
      | none =>
        if ag.2 then
          let snapId := orc.sigContent.getD ""
          if orc.snapRunning then
            (none, ⟨st1.manifestCache,
              { st1.slots with current := moveIntoDir snapId st1.slots.current }⟩)
          else
            (none, ⟨st1.manifestCache,
              { st1.slots with upgrade := moveIntoDir snapId st1.slots.upgrade }⟩)
        else (none, st1)
    | Status.new =>
      let ag := acquire_and_gate orc
      match ag.1 with
      | some e => (some e, st1)
      | none =>
        if ag.2 then
          let snapId := orc.sigContent.getD ""
          (none, ⟨st1.manifestCache, { st1.slots with upgrade := some [snapId] }⟩)
        else (none, st1)

/-- The `for k, v in vars(args).items()` document loop (mutatio.py lines
446-456): run the requested document checks in order; a fetch failure inside
`get_document` exits the process (mutatio.py line 146), so later topics never
run.  Returns (topics whose check completed, exit code if the process died). -/
def runDocs (fetch : String → Option String) : List String → List String × Option Int
  | [] => ([], none)
  | t :: ts =>
    match fetch t with
    | none => ([], some (-2))
    | some _ =>
      let r := runDocs fetch ts
      (t :: r.1, r.2)

/-- One whole `main` invocation (mutatio.py lines 441-507): the document loop
first, then — if requested and still alive — the snapshot section.  Returns
(completed document topics, exit code if the process died, final state). -/
def main_model (topics : List String) (snapshotFlag : Bool) (orc : Oracle)
    (st : MainState) : List String × Option Int × MainState :=
  let docs := runDocs orc.docFetch topics
  match docs.2 with
  | some e => (docs.1, some e, st)
  | none =>
    if snapshotFlag then
      let r := snapshot_main orc st
      (docs.1, r.1, r.2)
    else
      (docs.1, none, st)

/-! ## Helper lemmas -/

/-- A `get_binary` loop over files that all fetch successfully attempts every
file, in order, and succeeds. -/
theorem fetchLoop_all_ok (fetchOk : String → Bool) :
    ∀ fs : List String, (∀ f ∈ fs, fetchOk f = true) →
      fetchLoop fetchOk fs = (true, fs) := by
  intro fs
  induction fs with
  | nil => intro _; rfl
  | cons f fs ih =>
      intro h
      have hf : fetchOk f = true := h f (List.mem_cons_self f fs)
      have hrest := ih (fun x hx => h x (List.mem_cons_of_mem f hx))
      simp [fetchLoop, hf, hrest]

/-- When every requested document fetch succeeds, the document loop completes
every topic, in order, and the process stays alive. -/
theorem runDocs_all_ok (fetch : String → Option String) :
    ∀ ts : List String, (∀ t ∈ ts, (fetch t).isSome) →
      runDocs fetch ts = (ts, none) := by
  intro ts
  induction ts with
  | nil => intro _; rfl
  | cons t ts ih =>
      intro h
      have ht : (fetch t).isSome := h t (List.mem_cons_self t ts)
      obtain ⟨d, hd⟩ := Option.isSome_iff_exists.mp ht
      have hrest := ih (fun x hx => h x (List.mem_cons_of_mem t hx))
      simp [runDocs, hd, hrest]

/-- Unfolded shape of a `check_integrity` run. -/
theorem check_integrity_eq (ver : Nat → Bool × List String) (fetchOk : String → Bool) :
    check_integrity ver fetchOk =
      if (ver 0).2 = [] then ⟨none, (ver 0).1, 1, [], []⟩
      else if (fetchLoop fetchOk (ver 0).2).1 then
        ⟨none, (ver 1).1, 2, [300], (fetchLoop fetchOk (ver 0).2).2⟩
      else ⟨some (-2), false, 1, [300], (fetchLoop fetchOk (ver 0).2).2⟩ := rfl

/-! ## Claims -/

/-- Claim C1 (counterexample). With exit status 0 and an output consisting of
one line ending in the FAIL marker, `verify` returns the pass boolean `true`
together with a non-empty failed list — refuting the claim that the pass
boolean is true only when the failed list is empty (FAIL lines are *not*
authoritative over a success exit status). -/
theorem C1_cex_exit_zero_with_fail_line :
    (verify_result 0 "x: FAIL".toList).1 = true
    ∧ (verify_result 0 "x: FAIL".toList).2 = [['x']] := by
  constructor
  · rfl
  · decide

/-- Claim C1 (amended). The pass boolean returned by `verify` is `true` exactly
when the tool's exit status is 0, independent of the failed-member list; the
failed-member list is empty exactly when no output line ends in the FAIL
marker.  The two components are computed independently, so a zero exit status
with FAIL lines yields `(true, non-empty list)`. -/
theorem C1_verify_pass_is_exit_status (st : Int) (out : List Char) :
    ((verify_result st out).1 = true ↔ st = 0)
    ∧ ((verify_result st out).2 = [] ↔
        ∀ l ∈ splitOnChar '\n' out, endsWithS l "FAIL".toList = false) := by
  constructor
  · simp [verify_result]
  · simp [verify_result, failedMembers]

/-- Claim C1 (amended) witness. At exit status 0 with output `"ok"`, the pass
boolean is true and the failed list is empty. -/
theorem C1_verify_pass_is_exit_status_witness :
    (verify_result 0 "ok".toList).1 = true ∧ (verify_result 0 "ok".toList).2 = [] := by
  have h := C1_verify_pass_is_exit_status 0 "ok".toList
  exact ⟨h.1.mpr rfl, h.2.mpr (by decide)⟩

/-- Claim C3. `check_integrity` performs at most 2 verifier invocations and at
most 1 cool-down; when the first verification reports failed members and all
re-fetches succeed, it sleeps exactly once for 300 seconds, re-fetches exactly
the failed members, invokes the verifier a second time, and returns that
second verdict.  A stub that always fails yields intact = false after exactly
2 invocations; a stub failing `{A, B}` first and passing second yields
intact = true after exactly 2 invocations and 1 cool-down. -/
theorem C3_gate_single_retry (ver : Nat → Bool × List String)
    (fetchOk : String → Bool) :
    (check_integrity ver fetchOk).verifyCalls ≤ 2
    ∧ (check_integrity ver fetchOk).sleeps.length ≤ 1
    ∧ ((ver 0).2 ≠ [] → (∀ f ∈ (ver 0).2, fetchOk f = true) →
        check_integrity ver fetchOk = ⟨none, (ver 1).1, 2, [300], (ver 0).2⟩)
    ∧ check_integrity (fun _ => (false, ["A", "B"])) (fun _ => true) =
        ⟨none, false, 2, [300], ["A", "B"]⟩
    ∧ check_integrity (fun i => if i = 0 then (false, ["A", "B"]) else (true, []))
        (fun _ => true) = ⟨none, true, 2, [300], ["A", "B"]⟩ := by
  refine ⟨?_, ?_, ?_, by decide, by decide⟩
  · rw [check_integrity_eq]
    split
    · simp
    · split <;> simp
  · rw [check_integrity_eq]
    split
    · simp
    · split <;> simp
  · intro hne hok
    rw [check_integrity_eq, if_neg hne, fetchLoop_all_ok fetchOk (ver 0).2 hok]
    rfl

/-- Claim C3 witness. The retry branch at a concrete verifier stub: fails
`{A, B}` on the first call, passes on the second. -/
theorem C3_gate_single_retry_witness :
    check_integrity (fun i => if i = 0 then (false, ["A", "B"]) else (true, []))
      (fun _ => true) = ⟨none, true, 2, [300], ["A", "B"]⟩ := by
  have h := C3_gate_single_retry
    (fun i => if i = 0 then (false, ["A", "B"]) else (true, [])) (fun _ => true)
  exact h.2.2.1 (by decide) (by decide)

/-- Claim C10. When the first verification inside `check_integrity` reports no
failed members, the first verdict is returned immediately: exactly one
verifier invocation, no sleep, no re-fetch — even when that verdict's pass
boolean is false (failing exit status with no FAIL lines). -/
theorem C10_no_retry_on_empty_failed (ver : Nat → Bool × List String)
    (fetchOk : String → Bool) (h : (ver 0).2 = []) :
    check_integrity ver fetchOk = ⟨none, (ver 0).1, 1, [], []⟩ := by
  unfold check_integrity
  simp [h]

/-- Claim C10 witness. A verifier stub with failing exit status but no FAIL
lines: `check_integrity` reports not-intact after one invocation, no sleep. -/
theorem C10_no_retry_on_empty_failed_witness :
    check_integrity (fun _ => (false, [])) (fun _ => true) =
      ⟨none, false, 1, [], []⟩ :=
  C10_no_retry_on_empty_failed (fun _ => (false, [])) (fun _ => true) rfl

/-- Claim C4 (counterexample). Two regular files with the same size and the same
mtime but contents differing in one byte: `is_installed` returns `true`
(`filecmp.cmp`'s default shallow stat-signature comparison short-circuits), so
it is not a byte-for-byte comparison. -/
theorem C4_cex_shallow_stat_match :
    is_installed ⟨true, 5, [1, 2]⟩ ⟨true, 5, [1, 3]⟩ = true
    ∧ (⟨true, 5, [1, 2]⟩ : File).content ≠ (⟨true, 5, [1, 3]⟩ : File).content := by
  constructor
  · rfl
  · decide

/-- Claim C4 (amended). `is_installed` returns true iff both files are regular
and either their `os.stat` signatures (type, size, mtime) coincide or their
contents are byte-identical.  Byte-identical files always compare equal; a
one-byte difference yields false exactly when the stat signatures also
differ. -/
theorem C4_is_installed_shallow (f1 f2 : File) :
    is_installed f1 f2 =
      (f1.isRegular && f2.isRegular && (f1.sig == f2.sig || f1.content == f2.content)) := by
  unfold is_installed filecmp_cmp
  by_cases hr : f1.isRegular && f2.isRegular
  · simp only [hr, not_true_eq_false, if_false, Bool.true_and]
    by_cases hs : f1.sig == f2.sig
    · simp [hs]
    · simp only [hs, Bool.and_false, Bool.false_or, Bool.and_true, Bool.true_and,
        Bool.false_and]
      by_cases hl : f1.content.length = f2.content.length
      · simp [hl]
      · have hc : (f1.content == f2.content) = false := by
          apply beq_eq_false_iff_ne.mpr
          intro hcontra
          exact hl (congrArg List.length hcontra)
        simp [hl, hc]
  · simp [hr]

/-- Claim C5. Whenever the `upgrade` slot exists, rotation succeeds — also when
`previous` does not exist — and afterwards `previous` holds what `current`
held (absent if `current` was absent), `current` holds what `upgrade` held,
`upgrade` is empty, and the old contents of `previous` are gone. -/
theorem C5_rotate_shifts_generations {α : Type} (s : Slots α) (u : α)
    (h : s.upgrade = some u) :
    rotate s = some ⟨s.current, some u, none⟩ := by
  obtain ⟨p, c, up⟩ := s
  cases h
  cases c <;> rfl

/-- Claim C5 witness. Rotating concrete slots (all occupied, and with `previous`
absent). -/
theorem C5_rotate_shifts_generations_witness :
    rotate (⟨some 1, some 2, some 3⟩ : Slots Nat) = some ⟨some 2, some 3, none⟩
    ∧ rotate (⟨none, none, some 3⟩ : Slots Nat) = some ⟨none, some 3, none⟩ :=
  ⟨C5_rotate_shifts_generations ⟨some 1, some 2, some 3⟩ 3 rfl,
   C5_rotate_shifts_generations ⟨none, none, some 3⟩ 3 rfl⟩

/-- The `dropWhile` skips a leading block of elements that all satisfy the
predicate. -/
theorem dropWhile_append_of_all {α : Type} (p : α → Bool) (l₁ l₂ : List α)
    (h : ∀ c ∈ l₁, p c = true) :
    List.dropWhile p (l₁ ++ l₂) = List.dropWhile p l₂ := by
  induction l₁ with
  | nil => rfl
  | cons a l ih =>
      have ha := h a (List.mem_cons_self a l)
      simpa [List.dropWhile_cons, ha] using
        ih (fun c hc => h c (List.mem_cons_of_mem a hc))

/-- The `dropWhile` stops at the first element refuting the predicate. -/
theorem dropWhile_cons_false {α : Type} (p : α → Bool) (a : α) (l : List α)
    (h : p a = false) :
    List.dropWhile p (a :: l) = a :: l := by
  simp [List.dropWhile_cons, h]

/-- Claim C8 (counterexample). The base archive `baseab.tgz` (token `ab`)
matches the naming pattern, but the extraction yields the empty token instead
of `ab`: Python's `lstrip('base')`/`rstrip('.tgz')` strip *character sets*,
and both characters of `ab` lie in the set `{b,a,s,e}`. -/
theorem C8_cex_strip_eats_token :
    "baseab.tgz".toList = "base".toList ++ "ab".toList ++ ".tgz".toList
    ∧ matchesBasePattern "baseab.tgz".toList = true
    ∧ snapshot_release ["baseab.tgz".toList] = some []
    ∧ "ab".toList ≠ ([] : List Char) := by
  refine ⟨by decide, by decide, by decide, by decide⟩

/-- Claim C8 (amended). The extraction removes the maximal trailing run of
characters from the set `{'.','t','g','z'}` and then the maximal leading run
of characters from the set `{'b','a','s','e'}`.  Hence for a base archive
named `base<token>.tgz` the extracted token is exactly `<token>` precisely
under the proviso that the token's first character is not in `{b,a,s,e}` and
its last character is not in `{.,t,g,z}` (true of the release tokens actually
in use, e.g. `66`); and when no file in the snapshot matches the base-archive
pattern, the lookup fails (the fatal `IndexError` of `[0]` on an empty glob
list, modelled as `none`). -/
theorem C8_release_token_extraction (h t : Char) (token : List Char)
    (hh : token.head? = some h) (hl : token.getLast? = some t)
    (hb : ("base".toList).contains h = false)
    (ht : (".tgz".toList).contains t = false) :
    extractRelease ("base".toList ++ token ++ ".tgz".toList) = token
    ∧ ∀ listing : List (List Char),
        (∀ n ∈ listing, matchesBasePattern n = false) →
        snapshot_release listing = none := by
  constructor
  · obtain ⟨rest, hrev⟩ : ∃ rest, token.reverse = t :: rest := by
      cases hr : token.reverse with
      | nil =>
          have hnil : token = [] := by simpa using congrArg List.reverse hr
          rw [hnil] at hl
          simp at hl
      | cons a as =>
          have ha : token.getLast? = some a := by
            rw [← List.head?_reverse, hr]
            rfl
          have hat : a = t := Option.some.inj (ha.symm.trans hl)
          exact ⟨as, by rw [hat]⟩
    have htok : token = rest.reverse ++ [t] := by
      simpa using congrArg List.reverse hrev
    have hA : pyRstrip ".tgz".toList ("base".toList ++ token ++ ".tgz".toList)
        = "base".toList ++ token := by
      unfold pyRstrip
      have h1 : ("base".toList ++ token ++ ".tgz".toList).reverse
          = ".tgz".toList.reverse ++ (token.reverse ++ "base".toList.reverse) := by
        simp [List.reverse_append]
      rw [h1, dropWhile_append_of_all _ _ _ (by decide), hrev]
      rw [show (t :: rest) ++ "base".toList.reverse
            = t :: (rest ++ "base".toList.reverse) from rfl]
      rw [dropWhile_cons_false _ _ _ ht]
      simp [htok, List.reverse_append]
    unfold extractRelease
    rw [hA]
    unfold pyLstrip
    rw [dropWhile_append_of_all _ _ _ (by decide)]
    obtain ⟨tl, htl⟩ : ∃ tl, token = h :: tl := by
      cases token with
      | nil => simp at hh
      | cons a tl =>
          have : a = h := Option.some.inj hh
          exact ⟨tl, by rw [this]⟩
    rw [htl, dropWhile_cons_false _ _ _ hb]
  · intro listing hno
    unfold snapshot_release
    rw [List.filter_eq_nil_iff.mpr (by simpa using hno)]
    rfl

/-- Claim C8 witness. The extraction applied to the realistic archive
`base66.tgz` recovers the token `66`, and an empty listing has no base
archive. -/
theorem C8_release_token_extraction_witness :
    extractRelease ("base".toList ++ ['6', '6'] ++ ".tgz".toList) = ['6', '6']
    ∧ snapshot_release [['x']] = none := by
  have hmain := C8_release_token_extraction '6' '6' ['6', '6'] rfl rfl
    (by decide) (by decide)
  exact ⟨hmain.1, hmain.2 [['x']] (by decide)⟩

/-- When `acquire_and_gate` does not exit the process, its verdict is the
integrity gate's verdict. -/
theorem acquire_and_gate_intact (orc : Oracle)
    (h : (acquire_and_gate orc).1 = none) :
    (acquire_and_gate orc).2 = (check_integrity orc.ver orc.binFetch).intact := by
  cases hdl : (download_snapshot orc.sigContent orc.binFetch).1 with
  | some e =>
      simp only [acquire_and_gate, hdl] at h
      exact absurd h (by simp)
  | none =>
      cases hex : (check_integrity orc.ver orc.binFetch).exitCode with
      | some e =>
          simp only [acquire_and_gate, hdl, hex] at h
          exact absurd h (by simp)
      | none => simp [acquire_and_gate, hdl, hex]

/-- Claim C2. When the Integrity Gate reports not-intact for a newly staged
snapshot (the BUILDINFO status was `bootstrap` or `new`, i.e. the cache did
not already equal the fetched document), the snapshot section of `main`
leaves all three generation slots exactly as they were: the snapshot is never
moved into any slot. -/
theorem C2_not_intact_preserves_slots (orc : Oracle) (st : MainState)
    (doc : String) (hb : orc.buildinfo = some doc)
    (hstaged : st.manifestCache ≠ some doc)
    (hgate : (check_integrity orc.ver orc.binFetch).intact = false) :
    (snapshot_main orc st).2.slots = st.slots := by
  have hag2 : (acquire_and_gate orc).1 = none → (acquire_and_gate orc).2 = false :=
    fun h => (acquire_and_gate_intact orc h).trans hgate
  unfold snapshot_main
  rw [hb]
  cases hc : st.manifestCache with
  | none =>
      simp only [get_update_info]
      cases hag : (acquire_and_gate orc).1 with
      | some e => simp [hag]
      | none => simp [hag, hag2 hag]
  | some prev =>
      have hpd : ¬prev = doc := fun hp => hstaged (by rw [hc, hp])
      simp only [get_update_info, hpd, if_false]
      cases hag : (acquire_and_gate orc).1 with
      | some e => simp [hag]
      | none => simp [hag, hag2 hag]

/-- Claim C2 witness. A concrete not-intact run (verifier exit status nonzero,
no FAIL lines) against occupied slots: the slots are untouched. -/
theorem C2_not_intact_preserves_slots_witness :
    (snapshot_main
      ⟨some "B", fun _ => some "d", some "(bsd)\n", fun _ => true,
        fun _ => (false, []), false, false⟩
      ⟨none, ⟨some ["p"], some ["c"], some ["u"]⟩⟩).2.slots
    = ⟨some ["p"], some ["c"], some ["u"]⟩ :=
  C2_not_intact_preserves_slots _ _ "B" rfl (by simp) rfl

/-- Whenever the snapshot section exits the process (any `sys.exit` on its
path), the generation slots are untouched. -/
theorem snapshot_main_exit_slots (orc : Oracle) (st : MainState) (e : Int) :
    (snapshot_main orc st).1 = some e → (snapshot_main orc st).2.slots = st.slots := by
  unfold snapshot_main
  cases hb : orc.buildinfo with
  | none => intro _; rfl
  | some doc =>
    cases hc : st.manifestCache with
    | none =>
        simp only [get_update_info]
        cases hag : (acquire_and_gate orc).1 with
        | some e2 => intro _; rfl
        | none =>
            by_cases hg : (acquire_and_gate orc).2 = true
            · by_cases hr : orc.snapRunning = true <;> simp [hag, hg, hr]
            · simp [hag, hg]
    | some prev =>
        by_cases hpd : prev = doc
        · simp only [get_update_info, hpd, if_pos rfl]
          by_cases hup : (st.slots.upgrade.isSome && orc.upgradeRunning) = true
          · cases hrot : rotate st.slots with
            | some s2 => simp [hup, hrot]
            | none => simp [hup, hrot]
          · simp [hup]
        · simp only [get_update_info, hpd, if_false]
          cases hag : (acquire_and_gate orc).1 with
          | some e2 => intro _; rfl
          | none =>
              by_cases hg : (acquire_and_gate orc).2 = true <;> simp [hag, hg]

/-- Claim C7. A TransferError anywhere in the snapshot pipeline (BUILDINFO
fetch, manifest fetch, member fetch, or retry re-fetch — every path on which
`get_binary`/`get_document` exits the process) aborts only that pipeline:
provided the requested document checks' own fetches succeed, every one of
them completes in the same invocation (they run before the snapshot section),
and the generation slots are untouched. -/
theorem C7_transfer_error_spares_documents (topics : List String) (orc : Oracle)
    (st : MainState) (e : Int)
    (hdocs : ∀ t ∈ topics, (orc.docFetch t).isSome)
    (habort : (snapshot_main orc st).1 = some e) :
    (main_model topics true orc st).1 = topics
    ∧ (main_model topics true orc st).2.1 = some e
    ∧ (main_model topics true orc st).2.2.slots = st.slots := by
  have hd := runDocs_all_ok orc.docFetch topics hdocs
  have hs := snapshot_main_exit_slots orc st e habort
  unfold main_model
  rw [hd]
  simp [habort, hs]

/-- Claim C7 witness. The manifest fetch fails (TransferError) while one
document check is requested: the document check completes, the pipeline exits
with code -2, and the slots are untouched. -/
theorem C7_transfer_error_spares_documents_witness :
    (main_model ["errata"] true
      ⟨some "B", fun _ => some "d", none, fun _ => true,
        fun _ => (true, []), false, false⟩
      ⟨none, ⟨none, none, some ["u"]⟩⟩).1 = ["errata"]
    ∧ (main_model ["errata"] true
      ⟨some "B", fun _ => some "d", none, fun _ => true,
        fun _ => (true, []), false, false⟩
      ⟨none, ⟨none, none, some ["u"]⟩⟩).2.2.slots = ⟨none, none, some ["u"]⟩ := by
  have h := C7_transfer_error_spares_documents ["errata"]
    ⟨some "B", fun _ => some "d", none, fun _ => true,
      fun _ => (true, []), false, false⟩
    ⟨none, ⟨none, none, some ["u"]⟩⟩ (-2) (by simp) rfl
  exact ⟨h.1, h.2.2⟩

/-- Claim C9. `get_update_info` writes the local cache exactly when it returns
`bootstrap` or `new` (it returns `same` iff the cache already equals the
fetched document, and then leaves the cache untouched); and in the snapshot
section the write happens before acquisition and verification, so whenever
the BUILDINFO fetch succeeds the cache ends up equal to the fetched document
— also when the snapshot is later found not intact, or the pipeline dies. -/
theorem C9_cache_written_before_pipeline :
    (∀ (cache : Option String) (doc : String),
      ((get_update_info cache doc).1 = Status.same ↔ cache = some doc)
      ∧ ((get_update_info cache doc).2.2 = true ↔ (get_update_info cache doc).1 ≠ Status.same)
      ∧ ((get_update_info cache doc).2.2 = true → (get_update_info cache doc).2.1 = some doc)
      ∧ ((get_update_info cache doc).2.2 = false → (get_update_info cache doc).2.1 = cache))
    ∧ ∀ (orc : Oracle) (st : MainState) (doc : String), orc.buildinfo = some doc →
        (snapshot_main orc st).2.manifestCache = some doc := by
  constructor
  · intro cache doc
    cases cache with
    | none => simp [get_update_info]
    | some prev =>
        by_cases hpd : prev = doc <;> simp [get_update_info, hpd]
  · intro orc st doc hb
    unfold snapshot_main
    rw [hb]
    cases hc : st.manifestCache with
    | none =>
        simp only [get_update_info]
        cases hag : (acquire_and_gate orc).1 with
        | some e => simp [hag]
        | none =>
            by_cases hg : (acquire_and_gate orc).2 = true
            · by_cases hr : orc.snapRunning = true <;> simp [hag, hg, hr]
            · simp [hag, hg]
    | some prev =>
        by_cases hpd : prev = doc
        · simp only [get_update_info, hpd, if_pos rfl]
          by_cases hup : (st.slots.upgrade.isSome && orc.upgradeRunning) = true
          · cases hrot : rotate st.slots with
            | some s2 => simp [hup, hrot]
            | none => simp [hup, hrot]
          · simp [hup]
        · simp only [get_update_info, hpd, if_false]
          cases hag : (acquire_and_gate orc).1 with
          | some e => simp [hag]
          | none =>
              by_cases hg : (acquire_and_gate orc).2 = true <;> simp [hag, hg]

/-- Claim C9 witness. Cache update at concrete inputs: `same` leaves the cache,
`new` overwrites it; and a not-intact pipeline still ends with the cache equal
to the new BUILDINFO. -/
theorem C9_cache_written_before_pipeline_witness :
    (get_update_info (some "old") "new").2.1 = some "new"
    ∧ (get_update_info (some "x") "x").2.1 = some "x"
    ∧ (snapshot_main
        ⟨some "B", fun _ => some "d", some "(bsd)\n", fun _ => true,
          fun _ => (false, []), false, false⟩
        ⟨none, ⟨none, none, none⟩⟩).2.manifestCache = some "B" := by
  refine ⟨?_, ?_, ?_⟩
  · exact (C9_cache_written_before_pipeline.1 (some "old") "new").2.2.1 rfl
  · exact (C9_cache_written_before_pipeline.1 (some "x") "x").2.2.2 rfl
  · exact C9_cache_written_before_pipeline.2 _ _ "B" rfl

/-! ## Lemmas about the greedy parenthesis scan -/

/-- A successful split names the last `')'`: the segment decomposes around it
and nothing after it is a `')'`. -/
theorem splitLastRParen_eq_some :
    ∀ l g a : List Char, splitLastRParen l = some (g, a) → l = g ++ ')' :: a := by
  intro l
  induction l with
  | nil => intro g a h; simp [splitLastRParen] at h
  | cons c rest ih =>
      intro g a h
      unfold splitLastRParen at h
      cases hs : splitLastRParen rest with
      | some p =>
          rw [hs] at h
          simp only [Option.some.injEq, Prod.mk.injEq] at h
          obtain ⟨rfl, rfl⟩ := h
          simp [ih p.1 p.2 hs]
      | none =>
          rw [hs] at h
          by_cases hc : c = ')'
          · rw [if_pos hc] at h
            simp only [Option.some.injEq, Prod.mk.injEq] at h
            obtain ⟨rfl, rfl⟩ := h
            simp [hc]
          · rw [if_neg hc] at h
            exact absurd h (by simp)

/-- A segment with no `')'` fails to split. -/
theorem splitLastRParen_none : ∀ l : List Char, ')' ∉ l → splitLastRParen l = none := by
  intro l
  induction l with
  | nil => intro _; rfl
  | cons c rest ih =>
      intro h
      have hc : ¬c = ')' := fun hc => h (by rw [hc]; exact List.mem_cons_self _ _)
      unfold splitLastRParen
      rw [ih (fun hm => h (List.mem_cons_of_mem c hm)), if_neg hc]

/-- Splitting a segment whose tail after the marked `')'` is `')'`-free finds
exactly that `')'`. -/
theorem splitLastRParen_concat :
    ∀ g a : List Char, ')' ∉ a → splitLastRParen (g ++ ')' :: a) = some (g, a) := by
  intro g
  induction g with
  | nil =>
      intro a ha
      simp only [List.nil_append]
      unfold splitLastRParen
      rw [splitLastRParen_none a ha]
      simp
  | cons c g' ih =>
      intro a ha
      simp only [List.cons_append]
      unfold splitLastRParen
      rw [ih a ha]

/-- The `findallAux` does not depend on the fuel once the fuel covers the input
length. -/
theorem findallAux_stable :
    ∀ f₁ f₂ : Nat, ∀ l : List Char, l.length ≤ f₁ → l.length ≤ f₂ →
      findallAux f₁ l = findallAux f₂ l := by
  intro f₁
  induction f₁ with
  | zero =>
      intro f₂ l h1 _
      have hl : l = [] := List.eq_nil_of_length_eq_zero (Nat.le_zero.mp h1)
      subst hl
      cases f₂ <;> rfl
  | succ f ih =>
      intro f₂ l h1 h2
      cases l with
      | nil => cases f₂ <;> rfl
      | cons c rest =>
          cases f₂ with
          | zero => simp at h2
          | succ f₂' =>
              have h1' : rest.length ≤ f := by simpa using h1
              have h2' : rest.length ≤ f₂' := by simpa using h2
              unfold findallAux
              by_cases hc : c = '('
              · rw [if_pos hc, if_pos hc]
                cases hs : splitLastRParen (rest.takeWhile (fun x => x ≠ '\n')) with
                | some p =>
                    obtain ⟨g2, a2⟩ := p
                    have hseg := splitLastRParen_eq_some _ g2 a2 hs
                    have hlen : (rest.takeWhile (fun x => x ≠ '\n')).length
                        + (rest.dropWhile (fun x => x ≠ '\n')).length = rest.length := by
                      rw [← List.length_append, List.takeWhile_append_dropWhile]
                    have hseglen : (rest.takeWhile (fun x => x ≠ '\n')).length
                        = g2.length + (a2.length + 1) := by
                      rw [hseg]; simp
                    have harg : (a2 ++ rest.dropWhile (fun x => x ≠ '\n')).length
                        + 1 ≤ rest.length := by
                      simp only [List.length_append]
                      omega
                    dsimp only
                    rw [ih f₂' _ (by omega) (by omega)]
                | none =>
                    dsimp only
                    rw [ih f₂' rest h1' h2']
              · rw [if_neg hc, if_neg hc, ih f₂' rest h1' h2']

/-- Fuel independence for the spec-side scan. -/
theorem parenSubstringsSpecAux_stable :
    ∀ f₁ f₂ : Nat, ∀ l : List Char, l.length ≤ f₁ → l.length ≤ f₂ →
      parenSubstringsSpecAux f₁ l = parenSubstringsSpecAux f₂ l := by
  intro f₁
  induction f₁ with
  | zero =>
      intro f₂ l h1 _
      have hl : l = [] := List.eq_nil_of_length_eq_zero (Nat.le_zero.mp h1)
      subst hl
      cases f₂ <;> rfl
  | succ f ih =>
      intro f₂ l h1 h2
      cases l with
      | nil => cases f₂ <;> rfl
      | cons c rest =>
          cases f₂ with
          | zero => simp at h2
          | succ f₂' =>
              have h1' : rest.length ≤ f := by simpa using h1
              have h2' : rest.length ≤ f₂' := by simpa using h2
              unfold parenSubstringsSpecAux
              by_cases hc : c = '('
              · rw [if_pos hc, if_pos hc]
                cases hs : rest.dropWhile (fun x => x ≠ ')') with
                | nil =>
                    dsimp only
                    rw [ih f₂' rest h1' h2']
                | cons d after =>
                    have hdrop : (rest.takeWhile (fun x => x ≠ ')')).length
                        + (rest.dropWhile (fun x => x ≠ ')')).length = rest.length := by
                      rw [← List.length_append, List.takeWhile_append_dropWhile]
                    rw [hs] at hdrop
                    simp only [List.length_cons] at hdrop
                    dsimp only
                    rw [ih f₂' after (by omega) (by omega)]
              · rw [if_neg hc, if_neg hc, ih f₂' rest h1' h2']

/-- Turn `c0 ∉ l` into the boolean form the scan predicates use. -/
theorem mem_all_ne {stop : Char} {l : List Char} (h : stop ∉ l) :
    ∀ c ∈ l, (fun x => decide (x ≠ stop)) c = true := by
  intro c hc
  simp only [decide_eq_true_eq]
  exact fun he => h (he ▸ hc)

/-- The `takeWhile` passes over a leading block of elements that all satisfy the
predicate. -/
theorem takeWhile_append_of_all {α : Type} (p : α → Bool) (l₁ l₂ : List α)
    (h : ∀ c ∈ l₁, p c = true) :
    List.takeWhile p (l₁ ++ l₂) = l₁ ++ List.takeWhile p l₂ := by
  induction l₁ with
  | nil => rfl
  | cons a l ih =>
      have ha := h a (List.mem_cons_self a l)
      simp [List.takeWhile_cons, ha,
        ih (fun c hc => h c (List.mem_cons_of_mem a hc))]

/-- The `takeWhile` stops at the first element refuting the predicate. -/
theorem takeWhile_cons_false {α : Type} (p : α → Bool) (a : α) (l : List α)
    (h : p a = false) :
    List.takeWhile p (a :: l) = [] := by
  simp [List.takeWhile_cons, h]

/-- The scan skips a character other than `'('`. -/
theorem findall_cons_skip (c : Char) (l : List Char) (hc : c ≠ '(') :
    findall (c :: l) = findall l := by
  show findallAux (l.length + 1) (c :: l) = findallAux l.length l
  conv_lhs => unfold findallAux
  rw [if_neg hc]

/-- The scan skips a whole `'('`-free block. -/
theorem findall_append_skip (pre : List Char) (l : List Char) (h : '(' ∉ pre) :
    findall (pre ++ l) = findall l := by
  induction pre with
  | nil => rfl
  | cons c pre' ih =>
      have hc : c ≠ '(' := fun hc => h (by rw [hc]; exact List.mem_cons_self _ _)
      rw [List.cons_append, findall_cons_skip c _ hc,
        ih (fun hm => h (List.mem_cons_of_mem c hm))]

/-- One greedy match: at a `'('` whose line contains a `')'`, the regex
consumes up to the *last* `')'` on the line and resumes after it.  When the
text after the group's closing `')'` up to the newline is `')'`-free, the
emitted group is exactly `name`. -/
theorem findall_match_step (name post r : List Char)
    (hn : '\n' ∉ name) (hp1 : '\n' ∉ post) (hp2 : ')' ∉ post) :
    findall ('(' :: (name ++ ')' :: (post ++ '\n' :: r)))
      = name :: findall (post ++ '\n' :: r) := by
  have htw : List.takeWhile (fun x => x ≠ '\n') (name ++ ')' :: (post ++ '\n' :: r))
      = name ++ ')' :: post := by
    rw [takeWhile_append_of_all _ _ _ (mem_all_ne hn)]
    congr 1
    rw [List.takeWhile_cons]
    simp only [show (decide (')' ≠ '\n')) = true from rfl, if_true]
    rw [takeWhile_append_of_all _ _ _ (mem_all_ne hp1)]
    rw [takeWhile_cons_false _ _ _ (by decide)]
    simp
  have hdw : List.dropWhile (fun x => x ≠ '\n') (name ++ ')' :: (post ++ '\n' :: r))
      = '\n' :: r := by
    rw [dropWhile_append_of_all _ _ _ (mem_all_ne hn)]
    rw [show (')' :: (post ++ '\n' :: r)) = (')' :: post) ++ '\n' :: r by simp]
    rw [dropWhile_append_of_all _ _ _ ?hall]
    case hall =>
      intro c hc
      rcases List.mem_cons.mp hc with hc1 | hc2
      · rw [hc1]; rfl
      · exact mem_all_ne hp1 c hc2
    exact dropWhile_cons_false _ _ _ (by decide)
  show findallAux ((name ++ ')' :: (post ++ '\n' :: r)).length + 1)
      ('(' :: (name ++ ')' :: (post ++ '\n' :: r))) = _
  unfold findallAux
  rw [if_pos rfl, htw, hdw, splitLastRParen_concat name post hp2]
  dsimp only
  congr 1
  exact findallAux_stable _ _ _ (by simp; omega) (le_refl _)

/-- The spec-side scan skips a character other than `'('`. -/
theorem spec_cons_skip (c : Char) (l : List Char) (hc : c ≠ '(') :
    parenSubstringsSpec (c :: l) = parenSubstringsSpec l := by
  show parenSubstringsSpecAux (l.length + 1) (c :: l) = parenSubstringsSpecAux l.length l
  conv_lhs => unfold parenSubstringsSpecAux
  rw [if_neg hc]

/-- The spec-side scan skips a whole `'('`-free block. -/
theorem spec_append_skip (pre : List Char) (l : List Char) (h : '(' ∉ pre) :
    parenSubstringsSpec (pre ++ l) = parenSubstringsSpec l := by
  induction pre with
  | nil => rfl
  | cons c pre' ih =>
      have hc : c ≠ '(' := fun hc => h (by rw [hc]; exact List.mem_cons_self _ _)
      rw [List.cons_append, spec_cons_skip c _ hc,
        ih (fun hm => h (List.mem_cons_of_mem c hm))]

/-- One minimal (spec-side) match: at a `'('`, take up to the *next* `')'`. -/
theorem spec_match_step (name suffix : List Char) (hn : ')' ∉ name) :
    parenSubstringsSpec ('(' :: (name ++ ')' :: suffix))
      = name :: parenSubstringsSpec suffix := by
  have hdw : List.dropWhile (fun x => x ≠ ')') (name ++ ')' :: suffix)
      = ')' :: suffix := by
    rw [dropWhile_append_of_all _ _ _ (mem_all_ne hn)]
    exact dropWhile_cons_false _ _ _ (by decide)
  have htw : List.takeWhile (fun x => x ≠ ')') (name ++ ')' :: suffix) = name := by
    rw [takeWhile_append_of_all _ _ _ (mem_all_ne hn)]
    rw [takeWhile_cons_false _ _ _ (by decide)]
    simp
  show parenSubstringsSpecAux ((name ++ ')' :: suffix).length + 1)
      ('(' :: (name ++ ')' :: suffix)) = _
  unfold parenSubstringsSpecAux
  rw [if_pos rfl, hdw]
  dsimp only
  rw [htw]
  congr 1
  exact parenSubstringsSpecAux_stable _ _ _ (by simp; omega) (le_refl _)

/-! ## Well-formed manifests -/

/-- One line of a manifest in the `SHA256 (name) = hash` shape: arbitrary text,
a parenthesized member name, arbitrary trailing text, a newline. -/
def manifestLine (pre name post : List Char) : List Char :=
  pre ++ '(' :: name ++ ')' :: post ++ ['\n']

/-- A manifest text assembled from such lines. -/
def manifestText : List (List Char × List Char × List Char) → List Char
  | [] => []
  | e :: es => manifestLine e.1 e.2.1 e.2.2 ++ manifestText es

/-- A chunk that interferes with neither the greedy nor the minimal scan:
free of parentheses and newlines. -/
def cleanChunk (l : List Char) : Prop :=
  ∀ c ∈ l, c ≠ '(' ∧ c ≠ ')' ∧ c ≠ '\n'

instance cleanChunk.dec (l : List Char) : Decidable (cleanChunk l) :=
  List.decidableBAll (fun c => c ≠ '(' ∧ c ≠ ')' ∧ c ≠ '\n') l

/-- On a manifest whose lines each hold exactly one parenthesized member name
(and no other parentheses), the code's greedy scan and the spec's
"every substring enclosed in parentheses" reading agree: both produce exactly
the member names, in order of appearance, duplicates preserved. -/
theorem findall_manifestText :
    ∀ es : List (List Char × List Char × List Char),
      (∀ e ∈ es, cleanChunk e.1 ∧ cleanChunk e.2.1 ∧ cleanChunk e.2.2) →
      findall (manifestText es) = es.map (fun e => e.2.1)
      ∧ parenSubstringsSpec (manifestText es) = es.map (fun e => e.2.1) := by
  intro es
  induction es with
  | nil => intro _; exact ⟨rfl, rfl⟩
  | cons e es ih =>
      intro h
      obtain ⟨h1, h2, h3⟩ := h e (List.mem_cons_self e es)
      have ihe := ih (fun x hx => h x (List.mem_cons_of_mem e hx))
      have hpre_lp : '(' ∉ e.1 := fun hm => (h1 '(' hm).1 rfl
      have hname_rp : ')' ∉ e.2.1 := fun hm => (h2 ')' hm).2.1 rfl
      have hname_nl : '\n' ∉ e.2.1 := fun hm => (h2 '\n' hm).2.2 rfl
      have hpost_lp : '(' ∉ e.2.2 := fun hm => (h3 '(' hm).1 rfl
      have hpost_rp : ')' ∉ e.2.2 := fun hm => (h3 ')' hm).2.1 rfl
      have hpost_nl : '\n' ∉ e.2.2 := fun hm => (h3 '\n' hm).2.2 rfl
      have hshape : manifestText (e :: es)
          = e.1 ++ ('(' :: (e.2.1 ++ ')' :: (e.2.2 ++ '\n' :: manifestText es))) := by
        simp [manifestText, manifestLine, List.append_assoc]
      constructor
      · rw [hshape, findall_append_skip e.1 _ hpre_lp,
          findall_match_step e.2.1 e.2.2 (manifestText es) hname_nl hpost_nl hpost_rp,
          findall_append_skip e.2.2 _ hpost_lp,
          findall_cons_skip '\n' _ (by decide), ihe.1, List.map_cons]
      · rw [hshape, spec_append_skip e.1 _ hpre_lp,
          spec_match_step e.2.1 _ hname_rp,
          spec_append_skip e.2.2 _ hpost_lp,
          spec_cons_skip '\n' _ (by decide), ihe.2, List.map_cons]

/-- Claim C6 (counterexample). The manifest text `"(a)(b)"` contains two
parenthesized filenames, `a` and `b` (the spec's "every substring enclosed in
parentheses"), yet the Acquirer parses and fetches a single bogus member
`"a)(b"`: the greedy `\((.*)\)` runs from the first `'('` to the last `')'`
of the line.  So it does not fetch exactly the N parenthesized filenames for
every manifest text. -/
theorem C6_cex_greedy_collapses_names :
    parenSubstringsSpec "(a)(b)".toList = [['a'], ['b']]
    ∧ (download_snapshot (some "(a)(b)") (fun _ => true)).2.2 = ["a)(b"]
    ∧ (download_snapshot (some "(a)(b)") (fun _ => true)).2.1
        = ["SHA256.sig", "a)(b"]
    ∧ ("a)(b" : String) ≠ "a" := by
  refine ⟨by decide, by decide, by decide, by decide⟩

/-- Claim C6 (amended). The Acquirer fetches the manifest and then exactly the
matches of the greedy pattern `\((.*)\)` over the manifest text, in their
order of appearance, duplicates preserved (no dedup) — each match running
from an unconsumed `'('` to the *last* `')'` on the same line.  For manifest
texts in which every line contains exactly one parenthesized member name and
no other parentheses (the `SHA256 (name) = hash` shape), these matches are
exactly the N parenthesized filenames of the claim, in order, as the spec's
own minimal reading also computes. -/
theorem C6_acquirer_fetch_trace (content : String) (fetchOk : String → Bool)
    (hok : ∀ f ∈ (findall content.toList).map List.asString, fetchOk f = true) :
    download_snapshot (some content) fetchOk =
      (none, sigFileName :: (findall content.toList).map List.asString,
        (findall content.toList).map List.asString)
    ∧ ∀ es : List (List Char × List Char × List Char),
        (∀ e ∈ es, cleanChunk e.1 ∧ cleanChunk e.2.1 ∧ cleanChunk e.2.2) →
        findall (manifestText es) = es.map (fun e => e.2.1)
        ∧ parenSubstringsSpec (manifestText es) = es.map (fun e => e.2.1) := by
  constructor
  · unfold download_snapshot
    dsimp only
    rw [fetchLoop_all_ok fetchOk _ hok]
    rfl
  · exact fun es h => findall_manifestText es h

/-- Claim C6 witness. A realistic one-name-per-line manifest: the Acquirer
fetches the manifest and then `bsd` and `bsd.mp`, in order; and the
well-formed-manifest agreement at a concrete entry list. -/
theorem C6_acquirer_fetch_trace_witness :
    download_snapshot (some "SHA256 (bsd) = h\nSHA256 (bsd.mp) = h\n")
        (fun _ => true)
      = (none, ["SHA256.sig", "bsd", "bsd.mp"], ["bsd", "bsd.mp"])
    ∧ findall (manifestText [(['x'], "bsd".toList, ['y'])]) = ["bsd".toList] := by
  have h := C6_acquirer_fetch_trace "SHA256 (bsd) = h\nSHA256 (bsd.mp) = h\n"
    (fun _ => true) (by decide)
  refine ⟨h.1.trans (by decide), ?_⟩
  exact ((h.2 [(['x'], "bsd".toList, ['y'])] (by decide)).1).trans (by decide)

end Mutatio
